import Mathlib

/-!
Verification of the Stan automatic-differentiation excerpt against its
specification.  The source files embedded here are:

* `src/stan/math/fwd/scal/fun/binary_log_loss.hpp` (forward-mode dual-number
  rule for the binary log loss),
* `src/stan/math/matrix/inverse_spd.hpp` (inverse of a symmetric
  positive-definite matrix),
* `src/stan/math/prim/mat/fun/append_col.hpp` (horizontal concatenation of
  matrices),
* `src/stan/services/util/generate_transitions.hpp` (MCMC transition loop).

Real scalars of the C++ code (`double`) are embedded as `ℝ`; the IEEE special
values needed by one safety property get a dedicated carrier `FP` further
down.  Functions that throw in C++ return `Except DomainError` here.
-/

open scoped Classical
open scoped Matrix

namespace Stan

/-- Modelled from the spec: the error-signaling contract — "precondition
violations ... are reported as a named domain error carrying the offending
argument's name and a human-readable message".  `argName` is `none` when the
raising site supplies only a message (a bare `std::domain_error`). -/
structure DomainError where
  argName : Option String
  msg : String
deriving Repr, DecidableEq

/-- Modelled from the spec: the forward-mode dual number ("Dual Number:
`{ value: real, tangent: real }`"); the class `stan::agrad::fvar` of
`stan/math/fwd/core/fvar.hpp` is not among the provided sources.  Field names
follow the C++ members `val_` and `d_` used by `binary_log_loss.hpp`. -/
structure fvar where
  val_ : ℝ
  d_ : ℝ

namespace math

/-- Modelled from the spec: the primal rule
`binary_log_loss(y, p) = -[y·log(p) + (1-y)·log(1-p)]`
(`stan/math/prim/scal/fun/binary_log_loss.hpp` is not among the provided
sources). -/
noncomputable def binary_log_loss (y : ℤ) (p : ℝ) : ℝ :=
  -((y : ℝ) * Real.log p + (1 - (y : ℝ)) * Real.log (1 - p))

end math

namespace agrad

/-- Embedding of `stan::agrad::binary_log_loss` from
`src/stan/math/fwd/scal/fun/binary_log_loss.hpp`: the C++ `if (y)` tests the
truthiness of the `int` argument, i.e. `y ≠ 0`. -/
noncomputable def binary_log_loss (y : ℤ) (y_hat : fvar) : fvar :=
  if y ≠ 0 then
    ⟨math.binary_log_loss y y_hat.val_, -y_hat.d_ / y_hat.val_⟩
  else
    ⟨math.binary_log_loss y y_hat.val_, y_hat.d_ / (1 - y_hat.val_)⟩

end agrad

/-- Claim C1: for `y ∈ {0,1}`, forward-mode `binary_log_loss` treats `y` as a
fixed selector, returning tangent `-tangent(y_hat)/value(y_hat)` when `y = 1`
and `+tangent(y_hat)/(1-value(y_hat))` when `y = 0`. -/
theorem C1_binary_log_loss_tangent_selector (y : ℤ) (y_hat : fvar)
    (hy : y = 0 ∨ y = 1) :
    (agrad.binary_log_loss y y_hat).d_ =
      if y = 1 then -y_hat.d_ / y_hat.val_ else y_hat.d_ / (1 - y_hat.val_) := by
  rcases hy with h | h <;> subst h <;> simp [agrad.binary_log_loss]

/-- Witness for C1 at `y = 1`, `y_hat = (0.8, 1)` and `y = 0`. -/
theorem C1_binary_log_loss_tangent_selector_witness :
    (((1 : ℤ) = 0 ∨ (1 : ℤ) = 1) ∧
      (agrad.binary_log_loss 1 ⟨0.8, 1⟩).d_ =
        if (1 : ℤ) = 1 then -(1 : ℝ) / 0.8 else (1 : ℝ) / (1 - 0.8)) ∧
    (((0 : ℤ) = 0 ∨ (0 : ℤ) = 1) ∧
      (agrad.binary_log_loss 0 ⟨0.8, 1⟩).d_ =
        if (0 : ℤ) = 1 then -(1 : ℝ) / 0.8 else (1 : ℝ) / (1 - 0.8)) :=
  ⟨⟨Or.inr rfl, C1_binary_log_loss_tangent_selector 1 ⟨0.8, 1⟩ (Or.inr rfl)⟩,
   ⟨Or.inl rfl, C1_binary_log_loss_tangent_selector 0 ⟨0.8, 1⟩ (Or.inl rfl)⟩⟩

/-- Claim C6: at `y = 1`, `p = 0.8` with tangent seed 1, `binary_log_loss`
yields value `-log(0.8)` and derivative `-1/0.8 = -1.25`; at `y = 0`,
`p = 0.8` it yields value `-log(0.2)` and derivative `1/0.2 = 5`. -/
theorem C6_binary_log_loss_concrete_values :
    (agrad.binary_log_loss 1 ⟨0.8, 1⟩).val_ = -Real.log 0.8 ∧
    (agrad.binary_log_loss 1 ⟨0.8, 1⟩).d_ = -1.25 ∧
    (agrad.binary_log_loss 0 ⟨0.8, 1⟩).val_ = -Real.log 0.2 ∧
    (agrad.binary_log_loss 0 ⟨0.8, 1⟩).d_ = 5 := by
  refine ⟨?_, ?_, ?_, ?_⟩
  · simp [agrad.binary_log_loss, math.binary_log_loss]
  · simp only [agrad.binary_log_loss]
    norm_num
  · simp only [agrad.binary_log_loss, math.binary_log_loss]
    norm_num
  · simp only [agrad.binary_log_loss]
    norm_num

/-- Claim C9: forward-mode `binary_log_loss` branches on the truthiness of
`y`, not on `y = 1`: every nonzero integer `y` takes the `y = 1` tangent
branch (tangent `-y_hat.d_/y_hat.val_`), and only `y = 0` takes the other
branch. -/
theorem C9_binary_log_loss_truthiness_branch (y : ℤ) (y_hat : fvar) :
    (y ≠ 0 → agrad.binary_log_loss y y_hat =
      ⟨math.binary_log_loss y y_hat.val_, -y_hat.d_ / y_hat.val_⟩) ∧
    (y = 0 → agrad.binary_log_loss y y_hat =
      ⟨math.binary_log_loss y y_hat.val_, y_hat.d_ / (1 - y_hat.val_)⟩) := by
  constructor
  · intro hy
    simp [agrad.binary_log_loss, hy]
  · intro hy
    subst hy
    simp [agrad.binary_log_loss]

/-- Witness for C9 at the nonzero labels `y = 2` and `y = -1`, and at
`y = 0`, all with `y_hat = (0.8, 1)`. -/
theorem C9_binary_log_loss_truthiness_branch_witness :
    ((2 : ℤ) ≠ 0 ∧ agrad.binary_log_loss 2 ⟨0.8, 1⟩ =
      ⟨math.binary_log_loss 2 0.8, -(1 : ℝ) / 0.8⟩) ∧
    ((-1 : ℤ) ≠ 0 ∧ agrad.binary_log_loss (-1) ⟨0.8, 1⟩ =
      ⟨math.binary_log_loss (-1) 0.8, -(1 : ℝ) / 0.8⟩) ∧
    ((0 : ℤ) = 0 ∧ agrad.binary_log_loss 0 ⟨0.8, 1⟩ =
      ⟨math.binary_log_loss 0 0.8, (1 : ℝ) / (1 - 0.8)⟩) :=
  ⟨⟨by decide, (C9_binary_log_loss_truthiness_branch 2 ⟨0.8, 1⟩).1 (by decide)⟩,
   ⟨by decide, (C9_binary_log_loss_truthiness_branch (-1) ⟨0.8, 1⟩).1 (by decide)⟩,
   ⟨rfl, (C9_binary_log_loss_truthiness_branch 0 ⟨0.8, 1⟩).2 rfl⟩⟩

/-- Modelled from the spec: the IEEE-754 special values the spec appeals to
("division by a tangent-bearing value with zero primal must propagate
`±infinity`/`NaN` per IEEE semantics rather than raising").  `inf true` is
`-∞`, `inf false` is `+∞`; finite doubles are carried exactly as reals, and
the two signed zeros are identified (the sign of zero does not affect which
of `±∞`/`NaN` an operation produces at the inputs considered here, only the
sign of a resulting infinity from a signed-zero divisor). -/
inductive FP
  | nan : FP
  | inf : Bool → FP
  | fin : ℝ → FP

namespace FP

/-- IEEE negation: `NaN` stays `NaN`, infinities flip sign. -/
noncomputable def neg : FP → FP
  | nan => nan
  | inf s => inf (!s)
  | fin x => fin (-x)

/-- IEEE addition: `NaN` is absorbing, `∞ + (-∞) = NaN`. -/
noncomputable def add : FP → FP → FP
  | nan, _ => nan
  | _, nan => nan
  | inf s, inf t => if s = t then inf s else nan
  | inf s, fin _ => inf s
  | fin _, inf t => inf t
  | fin a, fin b => fin (a + b)

/-- IEEE subtraction, as addition of the negation. -/
noncomputable def sub (a b : FP) : FP :=
  add a (neg b)

/-- IEEE multiplication: `NaN` is absorbing and `0 · ∞ = NaN`. -/
noncomputable def mul : FP → FP → FP
  | nan, _ => nan
  | _, nan => nan
  | inf s, inf t => inf (xor s t)
  | inf s, fin b => if b = 0 then nan else inf (xor s (if b < 0 then true else false))
  | fin a, inf t => if a = 0 then nan else inf (xor (if a < 0 then true else false) t)
  | fin a, fin b => fin (a * b)

/-- IEEE division: `NaN` absorbing, `∞/∞ = NaN`, `0/0 = NaN`, and a nonzero
finite numerator over zero gives a signed infinity. -/
noncomputable def div : FP → FP → FP
  | nan, _ => nan
  | _, nan => nan
  | inf _, inf _ => nan
  | inf s, fin b => inf (xor s (if b < 0 then true else false))
  | fin _, inf _ => fin 0
  | fin a, fin b =>
      if b = 0 then (if a = 0 then nan else inf (if a < 0 then true else false))
      else fin (a / b)

/-- IEEE natural logarithm: `log 0 = -∞`, `log` of a negative is `NaN`. -/
noncomputable def log : FP → FP
  | nan => nan
  | inf false => inf false
  | inf true => nan
  | fin x => if x < 0 then nan else if x = 0 then inf true else fin (Real.log x)

end FP

/-- Modelled from the spec: the dual number over IEEE double values, used to
state the safety property about numeric edge cases. -/
structure fvarFP where
  val_ : FP
  d_ : FP

namespace math

/-- Modelled from the spec: the primal rule
`binary_log_loss(y, p) = -[y·log(p) + (1-y)·log(1-p)]` computed in IEEE
double arithmetic (`stan/math/prim/scal/fun/binary_log_loss.hpp` is not among
the provided sources). -/
noncomputable def binary_log_lossFP (y : ℤ) (p : FP) : FP :=
  FP.neg (FP.add (FP.mul (FP.fin (y : ℝ)) (FP.log p))
                 (FP.mul (FP.fin (1 - (y : ℝ))) (FP.log (FP.sub (FP.fin 1) p))))

end math

namespace agrad

/-- Embedding of `stan::agrad::binary_log_loss` over IEEE double values: the
same branch structure as `binary_log_loss` above, with every real operation
replaced by its IEEE counterpart on `FP`. -/
noncomputable def binary_log_lossFP (y : ℤ) (y_hat : fvarFP) : fvarFP :=
  if y ≠ 0 then
    ⟨math.binary_log_lossFP y y_hat.val_, FP.div (FP.neg y_hat.d_) y_hat.val_⟩
  else
    ⟨math.binary_log_lossFP y y_hat.val_, FP.div y_hat.d_ (FP.sub (FP.fin 1) y_hat.val_)⟩

end agrad

/-- Claim C5: forward-mode `binary_log_loss` is a total function — it returns
a dual number for every integer `y` and every dual `y_hat` (the embedding has
no error channel because the source raises none) — and at the edge inputs
whose tangent formula divides by zero (primal 0 with `y ≠ 0`, primal 1 with
`y = 0`) the tangent propagates as IEEE `±∞` (nonzero tangent seed) or `NaN`
(zero tangent seed) rather than failing. -/
theorem C5_binary_log_loss_ieee_edge (y : ℤ) (c : ℝ) :
    (∀ v d : FP, ∃ r : fvarFP, agrad.binary_log_lossFP y ⟨v, d⟩ = r) ∧
    (y ≠ 0 → c ≠ 0 →
      (agrad.binary_log_lossFP y ⟨FP.fin 0, FP.fin c⟩).d_ =
        FP.inf (if 0 < c then true else false)) ∧
    (y ≠ 0 → c = 0 →
      (agrad.binary_log_lossFP y ⟨FP.fin 0, FP.fin c⟩).d_ = FP.nan) ∧
    ((agrad.binary_log_lossFP 0 ⟨FP.fin 1, FP.fin c⟩).d_ =
      if c = 0 then FP.nan else FP.inf (if c < 0 then true else false)) := by
  refine ⟨fun v d => ⟨_, rfl⟩, ?_, ?_, ?_⟩
  · intro hy hc
    simp only [agrad.binary_log_lossFP, if_pos hy, FP.neg, FP.div]
    rw [if_pos trivial, if_neg (by simpa using hc)]
    congr 1
    simp [neg_lt_zero]
  · intro hy hc
    subst hc
    simp only [agrad.binary_log_lossFP, if_pos hy, FP.neg, FP.div]
    rw [if_pos trivial, if_pos (by norm_num)]
  · have hsub : FP.sub (FP.fin 1) (FP.fin 1) = FP.fin 0 := by
      simp [FP.sub, FP.neg, FP.add]
    simp only [agrad.binary_log_lossFP, if_neg (by simp : ¬ (0 : ℤ) ≠ 0), hsub, FP.div]
    rw [if_pos trivial]

/-- Witness for C5 at `y = 2` with tangent seed 1 (giving `-∞`), at `y = 3`
with tangent seed 0 (giving `NaN`), and at `y = 0` with primal 1. -/
theorem C5_binary_log_loss_ieee_edge_witness :
    (((2 : ℤ) ≠ 0 ∧ (1 : ℝ) ≠ 0) ∧
      (agrad.binary_log_lossFP 2 ⟨FP.fin 0, FP.fin 1⟩).d_ = FP.inf true) ∧
    ((3 : ℤ) ≠ 0 ∧
      (agrad.binary_log_lossFP 3 ⟨FP.fin 0, FP.fin 0⟩).d_ = FP.nan) ∧
    ((agrad.binary_log_lossFP 0 ⟨FP.fin 1, FP.fin 1⟩).d_ =
      if (1 : ℝ) = 0 then FP.nan else FP.inf (if (1 : ℝ) < 0 then true else false)) := by
  refine ⟨⟨⟨by decide, by norm_num⟩, ?_⟩, ⟨by decide, ?_⟩, ?_⟩
  · have h := (C5_binary_log_loss_ieee_edge 2 1).2.1 (by decide) (by norm_num)
    rw [h, if_pos (by norm_num : (0 : ℝ) < 1)]
  · exact (C5_binary_log_loss_ieee_edge 3 0).2.2.1 (by decide) rfl
  · exact (C5_binary_log_loss_ieee_edge 0 1).2.2.2

namespace math

/-- The square view of a dynamically-sized matrix once the square check has
passed: the Eigen dynamic matrix `m` of size `r × c` with `r = c` read as an
`r × r` matrix. -/
def squareView {r c : ℕ} (m : Matrix (Fin r) (Fin c) ℝ) (h : r = c) :
    Matrix (Fin r) (Fin r) ℝ :=
  fun i j => m i (Fin.cast h j)

/-- The matrix the source hands to the LDLT factorization:
`0.5*(m+m.transpose())`, verbatim from `inverse_spd.hpp`. -/
def ldltInput {n : ℕ} (A : Matrix (Fin n) (Fin n) ℝ) : Matrix (Fin n) (Fin n) ℝ :=
  (0.5 : ℝ) • (A + Aᵀ)

/-- Modelled from the spec: Eigen's `ldlt.info() == Eigen::Success`.  Failure
of the factorization is a working-precision phenomenon ("singular to working
precision"); in the exact real arithmetic of this embedding the pivoted LDLT
factorization of a symmetric matrix always completes. -/
def ldltInfoSuccess {n : ℕ} (_A : Matrix (Fin n) (Fin n) ℝ) : Prop :=
  True

/-- Modelled from the spec: Eigen's
`ldlt.isPositive() && !(ldlt.vectorD().array() <= 0).any()`.  In exact
arithmetic a symmetric matrix passes both tests exactly when it is positive
definite. -/
def ldltPositive {n : ℕ} (A : Matrix (Fin n) (Fin n) ℝ) : Prop :=
  A.PosDef

/-- Modelled from the spec: `ldlt.solve(Identity)` — in exact arithmetic, the
inverse of the factored matrix ("a numerically stable factorization" whose
solve returns `M⁻¹`). -/
noncomputable def ldltSolveIdentity {n : ℕ} (A : Matrix (Fin n) (Fin n) ℝ) :
    Matrix (Fin n) (Fin n) ℝ :=
  A⁻¹

/-- Embedding of `stan::math::inverse_spd` from
`src/stan/math/matrix/inverse_spd.hpp`.  The helpers `check_square` and
`check_symmetric` are not among the provided sources and are modelled from
the spec as the exact square/symmetry tests raising a domain error that
names the offending argument `m`; the two `throw std::domain_error(...)`
sites visible in the source carry only their message. -/
noncomputable def inverse_spd {r c : ℕ} (m : Matrix (Fin r) (Fin c) ℝ) :
    Except DomainError (Matrix (Fin r) (Fin r) ℝ) :=
  if hsq : r = c then
    if (squareView m hsq).IsSymm then
      if ¬ ldltInfoSuccess (ldltInput (squareView m hsq)) then
        .error ⟨none, "Error in inverse_spd, LDLT factorization failed"⟩
      else if ¬ ldltPositive (ldltInput (squareView m hsq)) then
        .error ⟨none, "Error in inverse_spd, matrix not positive definite"⟩
      else
        .ok (ldltSolveIdentity (ldltInput (squareView m hsq)))
    else .error ⟨some "m", "inverse_spd: m is not symmetric"⟩
  else .error ⟨some "m", "inverse_spd: m must be square"⟩

theorem squareView_refl {n : ℕ} (A : Matrix (Fin n) (Fin n) ℝ) :
    squareView A rfl = A := by
  funext i j
  simp [squareView]

theorem ldltInput_of_isSymm {n : ℕ} {A : Matrix (Fin n) (Fin n) ℝ}
    (h : A.IsSymm) : ldltInput A = A := by
  funext i j
  rw [ldltInput, Matrix.smul_apply, Matrix.add_apply, Matrix.transpose_apply,
    h.apply i j, smul_eq_mul]
  ring

theorem isSymm_of_posDef {n : ℕ} {A : Matrix (Fin n) (Fin n) ℝ}
    (h : A.PosDef) : A.IsSymm := by
  have h1 := h.isHermitian
  rwa [Matrix.IsHermitian, Matrix.conjTranspose_eq_transpose_of_trivial] at h1

end math

/-- Claim C2: for every symmetric positive-definite matrix, `inverse_spd`
returns normally (no error) and the returned matrix is the inverse:
`inverse_spd(M) * M = 1` in the exact arithmetic of this embedding. -/
theorem C2_inverse_spd_returns_inverse (n : ℕ) (A : Matrix (Fin n) (Fin n) ℝ)
    (hA : A.PosDef) :
    math.inverse_spd A = .ok A⁻¹ ∧ A⁻¹ * A = 1 := by
  have hsymm : A.IsSymm := math.isSymm_of_posDef hA
  have h1 : ¬ ¬ math.ldltInfoSuccess A := fun h => h trivial
  have h2 : ¬ ¬ math.ldltPositive A := fun h => h hA
  constructor
  · rw [math.inverse_spd, dif_pos rfl, math.squareView_refl,
      if_pos hsymm, math.ldltInput_of_isSymm hsymm,
      if_neg h1, if_neg h2, math.ldltSolveIdentity]
  · exact Matrix.nonsing_inv_mul A (isUnit_iff_ne_zero.mpr hA.det_pos.ne')

/-- Witness for C2 at the (symmetric, positive-definite) identity matrix of
size 2. -/
theorem C2_inverse_spd_returns_inverse_witness :
    Matrix.PosDef (1 : Matrix (Fin 2) (Fin 2) ℝ) ∧
    (math.inverse_spd (1 : Matrix (Fin 2) (Fin 2) ℝ) =
        .ok (1 : Matrix (Fin 2) (Fin 2) ℝ)⁻¹ ∧
      (1 : Matrix (Fin 2) (Fin 2) ℝ)⁻¹ * 1 = 1) :=
  ⟨Matrix.PosDef.one, C2_inverse_spd_returns_inverse 2 1 Matrix.PosDef.one⟩

theorem isSymm_neg_one_matrix : (!![(-1 : ℝ)]).IsSymm :=
  Matrix.IsSymm.ext fun i j => by fin_cases i <;> fin_cases j <;> rfl

theorem not_posDef_neg_one_matrix : ¬ (!![(-1 : ℝ)]).PosDef := by
  intro h
  have hx : (fun _ => (1 : ℝ) : Fin 1 → ℝ) ≠ 0 := by
    intro hx
    have h0 := congrFun hx 0
    norm_num at h0
  have hq := h.2 (fun _ => (1 : ℝ)) hx
  simp [Matrix.dotProduct, Matrix.mulVec, Fin.sum_univ_one] at hq
  norm_num at hq

theorem not_isSymm_upper : ¬ (!![(0 : ℝ), 1; 0, 0]).IsSymm := by
  intro h
  have h2 := h.apply 0 1
  simp at h2

/-- Counterexample to C3 as stated: the square, symmetric but indefinite
matrix `[[-1]]` is rejected through the `throw std::domain_error(...)` site
of `inverse_spd.hpp`, whose error carries a human-readable message but not
the offending argument's name (`argName = none`). -/
theorem C3_counterexample_indefinite_error_unnamed :
    math.inverse_spd !![(-1 : ℝ)] =
      .error ⟨none, "Error in inverse_spd, matrix not positive definite"⟩ ∧
    ∀ e : DomainError, math.inverse_spd !![(-1 : ℝ)] = .error e →
      e.argName = none := by
  have hsymm : (!![(-1 : ℝ)]).IsSymm :=
    Matrix.IsSymm.ext fun i j => by fin_cases i <;> fin_cases j <;> rfl
  have hnpd : ¬ (!![(-1 : ℝ)]).PosDef := by
    intro h
    have hx : (fun _ => (1 : ℝ) : Fin 1 → ℝ) ≠ 0 := by
      intro hx
      have h0 := congrFun hx 0
      norm_num at h0
    have hq := h.2 (fun _ => (1 : ℝ)) hx
    simp [Matrix.dotProduct, Matrix.mulVec, Fin.sum_univ_one] at hq
    norm_num at hq
  have h1 : ¬ ¬ math.ldltInfoSuccess !![(-1 : ℝ)] := fun h => h trivial
  have h2 : ¬ math.ldltPositive !![(-1 : ℝ)] := hnpd
  have hmain : math.inverse_spd !![(-1 : ℝ)] =
      .error ⟨none, "Error in inverse_spd, matrix not positive definite"⟩ := by
    rw [math.inverse_spd, dif_pos rfl, math.squareView_refl, if_pos hsymm,
      math.ldltInput_of_isSymm hsymm, if_neg h1, if_pos h2]
  refine ⟨hmain, fun e he => ?_⟩
  rw [hmain] at he
  cases he
  rfl

/-- Claim C3, amended: every non-square, non-symmetric or
non-positive-definite input is rejected with a domain error and no result is
returned; the square/symmetry violations (detected by the `check_square` /
`check_symmetric` helpers) carry the offending argument's name `m` together
with a message, while the failed-factorization and not-positive-definite
violations carry a human-readable message only. -/
theorem C3_inverse_spd_rejects_bad_input (r c : ℕ) (m : Matrix (Fin r) (Fin c) ℝ) :
    (r ≠ c → math.inverse_spd m =
      .error ⟨some "m", "inverse_spd: m must be square"⟩) ∧
    ∀ (n : ℕ) (A : Matrix (Fin n) (Fin n) ℝ),
      (¬ A.IsSymm → math.inverse_spd A =
        .error ⟨some "m", "inverse_spd: m is not symmetric"⟩) ∧
      (A.IsSymm → ¬ A.PosDef → math.inverse_spd A =
        .error ⟨none, "Error in inverse_spd, matrix not positive definite"⟩) := by
  constructor
  · intro h
    rw [math.inverse_spd, dif_neg h]
  · intro n A
    constructor
    · intro hns
      rw [math.inverse_spd, dif_pos rfl, math.squareView_refl, if_neg hns]
    · intro hs hnpd
      have h1 : ¬ ¬ math.ldltInfoSuccess A := fun h => h trivial
      have h2 : ¬ math.ldltPositive A := hnpd
      rw [math.inverse_spd, dif_pos rfl, math.squareView_refl, if_pos hs,
        math.ldltInput_of_isSymm hs, if_neg h1, if_pos h2]

/-- Witness for the amended C3: a 1×2 (non-square) zero matrix, the
non-symmetric matrix `[[0,1],[0,0]]`, and the symmetric indefinite matrix
`[[-1]]`. -/
theorem C3_inverse_spd_rejects_bad_input_witness :
    ((1 : ℕ) ≠ 2 ∧ math.inverse_spd (0 : Matrix (Fin 1) (Fin 2) ℝ) =
      .error ⟨some "m", "inverse_spd: m must be square"⟩) ∧
    (¬ (!![(0 : ℝ), 1; 0, 0]).IsSymm ∧ math.inverse_spd !![(0 : ℝ), 1; 0, 0] =
      .error ⟨some "m", "inverse_spd: m is not symmetric"⟩) ∧
    ((!![(-1 : ℝ)]).IsSymm ∧ ¬ (!![(-1 : ℝ)]).PosDef ∧
      math.inverse_spd !![(-1 : ℝ)] =
        .error ⟨none, "Error in inverse_spd, matrix not positive definite"⟩) :=
  ⟨⟨by decide, (C3_inverse_spd_rejects_bad_input 1 2 0).1 (by decide)⟩,
   ⟨not_isSymm_upper,
    ((C3_inverse_spd_rejects_bad_input 1 2 0).2 2 !![(0 : ℝ), 1; 0, 0]).1
      not_isSymm_upper⟩,
   ⟨isSymm_neg_one_matrix, not_posDef_neg_one_matrix,
    ((C3_inverse_spd_rejects_bad_input 1 2 0).2 1 !![(-1 : ℝ)]).2
      isSymm_neg_one_matrix not_posDef_neg_one_matrix⟩⟩

/-- Claim C4: a non-symmetric input is always rejected with a domain error,
never silently corrected; and every matrix that passes the symmetry check is
handed to the factorization exactly as given — the symmetrization
`0.5*(m+mᵀ)` computed by the source (`ldltInput`) is the identity on
accepted inputs, and the accepted matrix itself is what gets inverted. -/
theorem C4_inverse_spd_never_corrects (n : ℕ) (A : Matrix (Fin n) (Fin n) ℝ) :
    (¬ A.IsSymm → math.inverse_spd A =
      .error ⟨some "m", "inverse_spd: m is not symmetric"⟩) ∧
    (A.IsSymm → math.ldltInput A = A) ∧
    (A.IsSymm → A.PosDef → math.inverse_spd A = .ok A⁻¹) := by
  refine ⟨?_, fun hs => math.ldltInput_of_isSymm hs, ?_⟩
  · intro hns
    rw [math.inverse_spd, dif_pos rfl, math.squareView_refl, if_neg hns]
  · intro hs hA
    have h1 : ¬ ¬ math.ldltInfoSuccess A := fun h => h trivial
    have h2 : ¬ ¬ math.ldltPositive A := fun h => h hA
    rw [math.inverse_spd, dif_pos rfl, math.squareView_refl, if_pos hs,
      math.ldltInput_of_isSymm hs, if_neg h1, if_neg h2,
      math.ldltSolveIdentity]

/-- Witness for C4: the non-symmetric matrix `[[0,1],[0,0]]` is rejected,
and the symmetric positive-definite identity of size 1 passes through the
symmetrization unchanged and is inverted as given. -/
theorem C4_inverse_spd_never_corrects_witness :
    (¬ (!![(0 : ℝ), 1; 0, 0]).IsSymm ∧ math.inverse_spd !![(0 : ℝ), 1; 0, 0] =
      .error ⟨some "m", "inverse_spd: m is not symmetric"⟩) ∧
    ((1 : Matrix (Fin 1) (Fin 1) ℝ).IsSymm ∧
      math.ldltInput (1 : Matrix (Fin 1) (Fin 1) ℝ) = 1) ∧
    (Matrix.PosDef (1 : Matrix (Fin 1) (Fin 1) ℝ) ∧
      math.inverse_spd (1 : Matrix (Fin 1) (Fin 1) ℝ) =
        .ok (1 : Matrix (Fin 1) (Fin 1) ℝ)⁻¹) :=
  ⟨⟨not_isSymm_upper,
    (C4_inverse_spd_never_corrects 2 !![(0 : ℝ), 1; 0, 0]).1 not_isSymm_upper⟩,
   ⟨Matrix.transpose_one,
    (C4_inverse_spd_never_corrects 1 1).2.1 Matrix.transpose_one⟩,
   ⟨Matrix.PosDef.one,
    (C4_inverse_spd_never_corrects 1 1).2.2 Matrix.transpose_one Matrix.PosDef.one⟩⟩

namespace math

/-- One Eigen coefficient write `result(i, j) = v` on the result's storage,
viewed as a total map from (row, column) to scalars. -/
def writeCell {α : Type} (buf : ℕ → ℕ → α) (i j : ℕ) (v : α) : ℕ → ℕ → α :=
  fun i2 j2 => if i2 = i ∧ j2 = j then v else buf i2 j2

/-- One column-major inner loop `for (i) result(i, j0) = f(i)` over the rows
listed in `l`. -/
def rowFoldOn {α : Type} {r : ℕ} (l : List (Fin r)) (j0 : ℕ) (f : Fin r → α)
    (buf : ℕ → ℕ → α) : ℕ → ℕ → α :=
  l.foldl (fun b2 i => writeCell b2 i.val j0 (f i)) buf

/-- A nest of inner loops: for each loop counter `x` in `l`, fill column
`colIdx x` with the values `v x`. -/
def colFoldOn {α β : Type} {r : ℕ} (l : List β) (colIdx : β → ℕ)
    (v : β → Fin r → α) (buf : ℕ → ℕ → α) : ℕ → ℕ → α :=
  l.foldl (fun b x => rowFoldOn (List.finRange r) (colIdx x) (v x) b) buf

theorem rowFoldOn_other {α : Type} {r : ℕ} (l : List (Fin r)) (j0 : ℕ)
    (f : Fin r → α) (buf : ℕ → ℕ → α) (i0 j1 : ℕ)
    (h : j1 ≠ j0 ∨ ∀ i2 ∈ l, (i2 : ℕ) ≠ i0) :
    rowFoldOn l j0 f buf i0 j1 = buf i0 j1 := by
  induction l generalizing buf with
  | nil => rfl
  | cons a l ih =>
      rw [rowFoldOn, List.foldl_cons]
      have hstep : writeCell buf (a : ℕ) j0 (f a) i0 j1 = buf i0 j1 := by
        rw [writeCell, if_neg]
        rintro ⟨hi, hj⟩
        rcases h with h | h
        · exact h hj
        · exact h a (List.mem_cons_self a l) hi.symm
      have hrest := ih (writeCell buf (a : ℕ) j0 (f a))
        (by
          rcases h with h | h
          · exact Or.inl h
          · exact Or.inr fun i2 hi2 => h i2 (List.mem_cons_of_mem a hi2))
      rw [rowFoldOn] at hrest
      rw [hrest, hstep]

theorem rowFoldOn_mem {α : Type} {r : ℕ} (l : List (Fin r)) (j0 : ℕ)
    (f : Fin r → α) (buf : ℕ → ℕ → α) (i : Fin r) (hi : i ∈ l) :
    rowFoldOn l j0 f buf (i : ℕ) j0 = f i := by
  induction l generalizing buf with
  | nil => cases hi
  | cons a l ih =>
      rw [rowFoldOn, List.foldl_cons]
      by_cases hmem : i ∈ l
      · exact ih (writeCell buf (a : ℕ) j0 (f a)) hmem
      · have hia : i = a := by
          rcases List.mem_cons.mp hi with h | h
          · exact h
          · exact absurd h hmem
        subst hia
        have hrest := rowFoldOn_other l j0 f (writeCell buf (i : ℕ) j0 (f i))
          (i : ℕ) j0
          (Or.inr fun i2 hi2 hval => hmem (by
            have : i2 = i := Fin.val_injective hval
            rwa [this] at hi2))
        rw [rowFoldOn] at hrest
        rw [hrest, writeCell, if_pos ⟨rfl, rfl⟩]

theorem colFoldOn_other {α β : Type} {r : ℕ} (l : List β) (colIdx : β → ℕ)
    (v : β → Fin r → α) (buf : ℕ → ℕ → α) (i0 j0 : ℕ)
    (h : ∀ x ∈ l, colIdx x ≠ j0) :
    colFoldOn l colIdx v buf i0 j0 = buf i0 j0 := by
  induction l generalizing buf with
  | nil => rfl
  | cons a l ih =>
      rw [colFoldOn, List.foldl_cons]
      have hrest := ih (rowFoldOn (List.finRange r) (colIdx a) (v a) buf)
        (fun x hx => h x (List.mem_cons_of_mem a hx))
      rw [colFoldOn] at hrest
      rw [hrest]
      exact rowFoldOn_other _ _ _ _ _ _
        (Or.inl fun hj => h a (List.mem_cons_self a l) hj.symm)

theorem colFoldOn_mem {α β : Type} {r : ℕ} (l : List β) (colIdx : β → ℕ)
    (v : β → Fin r → α) (buf : ℕ → ℕ → α) (i : Fin r) (x : β)
    (hx : x ∈ l) (hnd : l.Nodup)
    (hinj : ∀ y ∈ l, ∀ z ∈ l, colIdx y = colIdx z → y = z) :
    colFoldOn l colIdx v buf (i : ℕ) (colIdx x) = v x i := by
  induction l generalizing buf with
  | nil => cases hx
  | cons a l ih =>
      rw [colFoldOn, List.foldl_cons]
      have hnd2 := List.nodup_cons.mp hnd
      by_cases hmem : x ∈ l
      · have hrec := ih (rowFoldOn (List.finRange r) (colIdx a) (v a) buf)
          hmem hnd2.2
          (fun y hy z hz hval => hinj y (List.mem_cons_of_mem a hy)
            z (List.mem_cons_of_mem a hz) hval)
        rw [colFoldOn] at hrec
        exact hrec
      · have hxa : x = a := by
          rcases List.mem_cons.mp hx with h | h
          · exact h
          · exact absurd h hmem
        subst hxa
        have hrest := colFoldOn_other l colIdx v
          (rowFoldOn (List.finRange r) (colIdx x) (v x) buf) (i : ℕ) (colIdx x)
          (fun y hy hval => hnd2.1 (by
            have : y = x := hinj y (List.mem_cons_of_mem x hy)
              x (List.mem_cons_self x l) hval
            rwa [this] at hy))
        rw [colFoldOn] at hrest
        rw [hrest]
        exact rowFoldOn_mem _ _ _ _ i (List.mem_finRange i)

/-- The buffer produced by the first loop nest of the two-type-parameter
`append_col` overload: `for (j < Acols) for (i < Arows) result(i,j) = A(i,j)`. -/
def copyA {α : Type} {r1 c1 : ℕ} (A : Matrix (Fin r1) (Fin c1) α)
    (buf : ℕ → ℕ → α) : ℕ → ℕ → α :=
  colFoldOn (List.finRange c1) (fun j => j.val) (fun j i => A i j) buf

/-- The buffer produced by the second loop nest:
`for (j = Acols, k = 0; k < Bcols; j++, k++) for (i < Arows)
result(i,j) = B(i,k)`; `h` is the row-count match established by the size
check, needed to index `B` with a row index of `A`. -/
def copyB {α : Type} {r1 r2 c2 : ℕ} (c1 : ℕ) (h : r1 = r2)
    (B : Matrix (Fin r2) (Fin c2) α) (buf : ℕ → ℕ → α) : ℕ → ℕ → α :=
  colFoldOn (List.finRange c2) (fun k => c1 + k.val)
    (fun k i => B (Fin.cast h i) k) buf

/-- Embedding of the two-type-parameter overload of `stan::math::append_col`
from `src/stan/math/prim/mat/fun/append_col.hpp`, instantiated at a common
scalar type (`return_type<T,T>::type = T`).  `check_size_match`
(`stan/math/prim/mat/err/check_size_match.hpp` is not among the provided
sources) is modelled from the spec as the exact row-count test raising a
domain error; on success the result is built by the two explicit copy loops
over an arbitrary uninitialized Eigen storage `init`. -/
def append_col {α : Type} (init : ℕ → ℕ → α) {r1 c1 r2 c2 : ℕ}
    (A : Matrix (Fin r1) (Fin c1) α) (B : Matrix (Fin r2) (Fin c2) α) :
    Except DomainError (Matrix (Fin r1) (Fin (c1 + c2)) α) :=
  if h : r1 = r2 then
    .ok (Matrix.of fun i j => copyB c1 h B (copyA A init) i.val j.val)
  else
    .error ⟨some "rows of A", "append_col: rows of A must match rows of B"⟩

/-- Modelled from Eigen's comma-initializer semantics: `result << A, B` with
`result` of shape `Arows × (Acols+Bcols)` fills the result as the block
matrix `[A B]`. -/
def commaInitRowBlocks {α : Type} {r1 c1 r2 c2 : ℕ} (h : r1 = r2)
    (A : Matrix (Fin r1) (Fin c1) α) (B : Matrix (Fin r2) (Fin c2) α) :
    Matrix (Fin r1) (Fin (c1 + c2)) α :=
  Matrix.of fun i j =>
    if hj : (j : ℕ) < c1 then A i ⟨(j : ℕ), hj⟩
    else B (Fin.cast h i) ⟨(j : ℕ) - c1, by have := j.isLt; omega⟩

/-- Embedding of the single-type-parameter overload of
`stan::math::append_col`: the same size check followed by the Eigen
comma-initializer `result << A, B`. -/
def append_col' {α : Type} {r1 c1 r2 c2 : ℕ}
    (A : Matrix (Fin r1) (Fin c1) α) (B : Matrix (Fin r2) (Fin c2) α) :
    Except DomainError (Matrix (Fin r1) (Fin (c1 + c2)) α) :=
  if h : r1 = r2 then
    .ok (commaInitRowBlocks h A B)
  else
    .error ⟨some "rows of A", "append_col: rows of A must match rows of B"⟩

theorem copyB_apply_low {α : Type} {r1 r2 c2 : ℕ} (c1 : ℕ) (h : r1 = r2)
    (B : Matrix (Fin r2) (Fin c2) α) (buf : ℕ → ℕ → α) (i0 j0 : ℕ)
    (hj : j0 < c1) :
    copyB c1 h B buf i0 j0 = buf i0 j0 :=
  colFoldOn_other _ _ _ _ _ _ (fun k _ hval => by
    have h2 : c1 + (k : ℕ) = j0 := hval
    omega)

theorem copyA_apply {α : Type} {r1 c1 : ℕ} (A : Matrix (Fin r1) (Fin c1) α)
    (buf : ℕ → ℕ → α) (i : Fin r1) (j : Fin c1) :
    copyA A buf (i : ℕ) (j : ℕ) = A i j :=
  colFoldOn_mem (List.finRange c1) (fun j2 => (j2 : ℕ)) (fun j2 i2 => A i2 j2)
    buf i j (List.mem_finRange j) (List.nodup_finRange c1)
    (fun y _ z _ hval => Fin.val_injective hval)

theorem copyB_apply {α : Type} {r1 r2 c2 : ℕ} (c1 : ℕ) (h : r1 = r2)
    (B : Matrix (Fin r2) (Fin c2) α) (buf : ℕ → ℕ → α) (i : Fin r1)
    (k : Fin c2) :
    copyB c1 h B buf (i : ℕ) (c1 + (k : ℕ)) = B (Fin.cast h i) k :=
  colFoldOn_mem (List.finRange c2) (fun k2 => c1 + (k2 : ℕ))
    (fun k2 i2 => B (Fin.cast h i2) k2) buf i k (List.mem_finRange k)
    (List.nodup_finRange c2)
    (fun y _ z _ hval => by
      have h2 : c1 + (y : ℕ) = c1 + (z : ℕ) := hval
      exact Fin.val_injective (by omega))

end math

/-- Claim C7: both general overloads of `append_col` fail fast with a domain
error when the row counts differ — no part of the result matrix is built, as
the error constructor carries no matrix — and return normally when the row
counts match. -/
theorem C7_append_col_fail_fast {α : Type} (init : ℕ → ℕ → α)
    {r1 c1 r2 c2 : ℕ} (A : Matrix (Fin r1) (Fin c1) α)
    (B : Matrix (Fin r2) (Fin c2) α) :
    (r1 ≠ r2 →
      math.append_col init A B =
        .error ⟨some "rows of A", "append_col: rows of A must match rows of B"⟩ ∧
      math.append_col' A B =
        .error ⟨some "rows of A", "append_col: rows of A must match rows of B"⟩) ∧
    (r1 = r2 →
      (∃ M, math.append_col init A B = .ok M) ∧
      (∃ M, math.append_col' A B = .ok M)) := by
  constructor
  · intro h
    constructor
    · rw [math.append_col, dif_neg h]
    · rw [math.append_col', dif_neg h]
  · intro h
    constructor
    · exact ⟨_, by rw [math.append_col, dif_pos h]⟩
    · exact ⟨_, by rw [math.append_col', dif_pos h]⟩

/-- Witness for C7 at a 1×1/2×1 mismatched pair and a matched 1×1 pair of
zero matrices over `ℕ`, with uninitialized storage constantly 7. -/
theorem C7_append_col_fail_fast_witness :
    ((1 : ℕ) ≠ 2 ∧
      math.append_col (fun _ _ => (7 : ℕ)) (0 : Matrix (Fin 1) (Fin 1) ℕ)
          (0 : Matrix (Fin 2) (Fin 1) ℕ) =
        .error ⟨some "rows of A", "append_col: rows of A must match rows of B"⟩) ∧
    ((1 : ℕ) = 1 ∧
      ∃ M, math.append_col (fun _ _ => (7 : ℕ)) (0 : Matrix (Fin 1) (Fin 1) ℕ)
          (0 : Matrix (Fin 1) (Fin 1) ℕ) = .ok M) :=
  ⟨⟨by decide,
    ((C7_append_col_fail_fast (fun _ _ => (7 : ℕ)) (0 : Matrix (Fin 1) (Fin 1) ℕ)
        (0 : Matrix (Fin 2) (Fin 1) ℕ)).1 (by decide)).1⟩,
   ⟨rfl,
    ((C7_append_col_fail_fast (fun _ _ => (7 : ℕ)) (0 : Matrix (Fin 1) (Fin 1) ℕ)
        (0 : Matrix (Fin 1) (Fin 1) ℕ)).2 rfl).1⟩⟩

/-- Claim C10: with equal row counts the two general overloads of
`append_col` agree — the explicit element-copy loops (over any uninitialized
storage) and the comma-initializer produce the same matrix, namely the block
matrix whose entry `(i,j)` is `A i j` for `j < Acols` and
`B i (j - Acols)` otherwise. -/
theorem C10_append_col_overloads_agree {α : Type} (init : ℕ → ℕ → α)
    {r1 c1 r2 c2 : ℕ} (A : Matrix (Fin r1) (Fin c1) α)
    (B : Matrix (Fin r2) (Fin c2) α) (h : r1 = r2) :
    math.append_col init A B = math.append_col' A B ∧
    math.append_col' A B = .ok (math.commaInitRowBlocks h A B) ∧
    ∀ (i : Fin r1) (j : Fin (c1 + c2)),
      math.commaInitRowBlocks h A B i j =
        if hj : (j : ℕ) < c1 then A i ⟨(j : ℕ), hj⟩
        else B (Fin.cast h i) ⟨(j : ℕ) - c1, by have := j.isLt; omega⟩ := by
  have hentry : ∀ (i : Fin r1) (j : Fin (c1 + c2)),
      math.copyB c1 h B (math.copyA A init) i.val j.val =
        math.commaInitRowBlocks h A B i j := by
    intro i j
    by_cases hj : (j : ℕ) < c1
    · rw [math.copyB_apply_low c1 h B (math.copyA A init) i.val j.val hj]
      calc math.copyA A init i.val j.val
          = math.copyA A init i.val ((⟨j.val, hj⟩ : Fin c1) : ℕ) := rfl
        _ = A i ⟨j.val, hj⟩ := math.copyA_apply A init i ⟨j.val, hj⟩
        _ = math.commaInitRowBlocks h A B i j := by
            simp only [math.commaInitRowBlocks, Matrix.of_apply]
            rw [dif_pos hj]
    · have hkfin : ((j : ℕ) - c1) < c2 := by have := j.isLt; omega
      have hk2 : c1 + ((⟨(j : ℕ) - c1, hkfin⟩ : Fin c2) : ℕ) = (j : ℕ) := by
        show c1 + ((j : ℕ) - c1) = (j : ℕ)
        omega
      calc math.copyB c1 h B (math.copyA A init) i.val j.val
          = math.copyB c1 h B (math.copyA A init) i.val
              (c1 + ((⟨(j : ℕ) - c1, hkfin⟩ : Fin c2) : ℕ)) := by rw [hk2]
        _ = B (Fin.cast h i) ⟨(j : ℕ) - c1, hkfin⟩ :=
            math.copyB_apply c1 h B (math.copyA A init) i ⟨(j : ℕ) - c1, hkfin⟩
        _ = math.commaInitRowBlocks h A B i j := by
            simp only [math.commaInitRowBlocks, Matrix.of_apply]
            rw [dif_neg hj]
  refine ⟨?_, by rw [math.append_col', dif_pos h], fun i j => rfl⟩
  rw [math.append_col, math.append_col', dif_pos h, dif_pos h]
  congr 1
  funext i j
  rw [Matrix.of_apply]
  exact hentry i j

/-- Witness for C10 at `A = [[1,2]]`, `B = [[3]]` over `ℕ` with
uninitialized storage constantly 9. -/
theorem C10_append_col_overloads_agree_witness :
    math.append_col (fun _ _ => (9 : ℕ)) !![1, 2] !![3] =
      math.append_col' !![1, 2] !![3] ∧
    math.append_col' !![(1 : ℕ), 2] !![3] =
      .ok (math.commaInitRowBlocks rfl !![1, 2] !![3]) :=
  ⟨(C10_append_col_overloads_agree (fun _ _ => (9 : ℕ)) !![1, 2] !![3] rfl).1,
   (C10_append_col_overloads_agree (fun _ _ => (9 : ℕ)) !![1, 2] !![3] rfl).2.1⟩

namespace services.util

/-- The body of the `for (int m = 0; m < num_iterations; ++m)` loop of
`stan::services::util::generate_transitions`
(`src/stan/services/util/generate_transitions.hpp`), by recursion on the
remaining iteration count `n` with `m` the current 0-based iteration index.
The sampler is abstracted to a state transformer `transition` (the interrupt
and iteration-message callbacks mutate neither the sampler state nor the
writer and are not modelled); the `mcmc_writer` is modelled as the list `w`
(in reverse) of iteration indices at which `write_sample_params` /
`write_diagnostic_params` were called.  The C++ save test
`save && ((m % num_thin) == 0)` short-circuits, and `m % 0` is undefined
behaviour, modelled as `none`; `%` on `int` is truncated remainder,
`Int.tmod`. -/
def generateTransitionsLoop {S : Type} (transition : S → S) (num_thin : ℤ)
    (save : Bool) : ℕ → ℕ → S → List ℕ → Option (S × List ℕ)
  | 0, _, s, w => some (s, w.reverse)
  | n + 1, m, s, w =>
      let s2 := transition s
      if save then
        if num_thin = 0 then none
        else if Int.tmod (m : ℤ) num_thin = 0 then
          generateTransitionsLoop transition num_thin save n (m + 1) s2 (m :: w)
        else
          generateTransitionsLoop transition num_thin save n (m + 1) s2 w
      else
        generateTransitionsLoop transition num_thin save n (m + 1) s2 w

/-- Embedding of `stan::services::util::generate_transitions`: run the loop
from `m = 0` with an empty write log; a negative `num_iterations` runs zero
iterations.  Returns the final sampler state and the list of 0-based
iteration indices written, or `none` if the undefined `m % 0` was
evaluated. -/
def generate_transitions {S : Type} (transition : S → S)
    (num_iterations num_thin : ℤ) (save : Bool) (init_s : S) :
    Option (S × List ℕ) :=
  generateTransitionsLoop transition num_thin save num_iterations.toNat 0 init_s []

theorem generateTransitionsLoop_spec {S : Type} (transition : S → S)
    (t : ℤ) (save : Bool) (ht : t ≠ 0) (n : ℕ) :
    ∀ (m : ℕ) (s : S) (w : List ℕ),
      generateTransitionsLoop transition t save n m s w =
        some (transition^[n] s,
          w.reverse ++
            (if save then
              ((List.range n).map (fun k => m + k)).filter
                (fun (k : ℕ) => decide (Int.tmod (k : ℤ) t = 0))
            else [])) := by
  induction n with
  | zero =>
      intro m s w
      simp [generateTransitionsLoop]
  | succ n ih =>
      intro m s w
      rw [generateTransitionsLoop]
      have hrange : (List.range (n + 1)).map (fun k => m + k) =
          m :: (List.range n).map (fun k => (m + 1) + k) := by
        rw [List.range_succ_eq_map, List.map_cons, List.map_map]
        refine congrArg (fun l => (m + 0) :: l) ?_
        refine List.map_congr_left fun k _ => ?_
        simp [Function.comp]
        omega
      cases save with
      | false =>
          simp only [if_neg (by simp : ¬ (false : Bool) = true)]
          rw [ih]
          simp [Function.iterate_succ_apply]
      | true =>
          simp only [if_pos rfl, if_neg ht]
          by_cases hm : Int.tmod (m : ℤ) t = 0
          · rw [if_pos hm, ih]
            rw [Function.iterate_succ_apply, hrange]
            simp only [List.filter_cons, decide_eq_true_eq, if_pos hm,
              List.reverse_cons, List.append_assoc, List.cons_append,
              List.nil_append]
            simp
          · rw [if_neg hm, ih]
            rw [Function.iterate_succ_apply, hrange]
            simp only [List.filter_cons, decide_eq_true_eq, if_neg hm]
            simp

theorem generate_transitions_spec {S : Type} (transition : S → S)
    (num_iterations num_thin : ℤ) (save : Bool) (s0 : S)
    (ht : num_thin ≠ 0) :
    generate_transitions transition num_iterations num_thin save s0 =
      some (transition^[num_iterations.toNat] s0,
        if save then
          (List.range num_iterations.toNat).filter
            (fun (m : ℕ) => decide (Int.tmod (m : ℤ) num_thin = 0))
        else []) := by
  rw [generate_transitions,
    generateTransitionsLoop_spec transition num_thin save ht]
  have hmap : (List.range num_iterations.toNat).map (fun k => 0 + k) =
      List.range num_iterations.toNat := by
    simp
  rw [hmap]
  simp

/-- Claim C8: the save test `m % num_thin == 0` divides by `num_thin`
unguarded, so `num_thin ≠ 0` is a precondition whenever `save` is true and
at least one iteration runs (else undefined behaviour, `none`); under that
precondition a draw is written exactly at the 0-based iterations `m` with
`m % num_thin == 0`, so the first iteration (`m = 0`) is always written. -/
theorem C8_generate_transitions_thinning {S : Type} (transition : S → S)
    (num_iterations num_thin : ℤ) (save : Bool) (s0 : S) :
    (save = true → 0 < num_iterations → num_thin = 0 →
      services.util.generate_transitions transition num_iterations num_thin
        save s0 = none) ∧
    (num_thin ≠ 0 →
      services.util.generate_transitions transition num_iterations num_thin
          save s0 =
        some (transition^[num_iterations.toNat] s0,
          if save then
            (List.range num_iterations.toNat).filter
              (fun (m : ℕ) => decide (Int.tmod (m : ℤ) num_thin = 0))
          else [])) ∧
    (num_thin ≠ 0 → save = true → 0 < num_iterations →
      ∃ sN ws,
        services.util.generate_transitions transition num_iterations num_thin
          save s0 = some (sN, ws) ∧ 0 ∈ ws) := by
  refine ⟨?_, ?_, ?_⟩
  · intro hsave hpos hzero
    subst hsave
    subst hzero
    obtain ⟨k, hk⟩ : ∃ k, num_iterations.toNat = k + 1 :=
      Nat.exists_eq_succ_of_ne_zero (by omega)
    rw [services.util.generate_transitions, hk,
      services.util.generateTransitionsLoop]
    simp
  · intro ht
    exact services.util.generate_transitions_spec transition num_iterations
      num_thin save s0 ht
  · intro ht hsave hpos
    subst hsave
    refine ⟨transition^[num_iterations.toNat] s0,
      (List.range num_iterations.toNat).filter
        (fun (m : ℕ) => decide (Int.tmod (m : ℤ) num_thin = 0)), ?_, ?_⟩
    · have h2 := services.util.generate_transitions_spec transition
        num_iterations num_thin true s0 ht
      rw [h2]
      simp
    · rw [List.mem_filter]
      constructor
      · exact List.mem_range.mpr (by omega)
      · simp [Int.zero_tmod]

/-- Witness for C8: with `save = true`, 3 iterations and `num_thin = 0` the
loop hits the undefined modulo (`none`); with `num_thin = 2` over 4
iterations of the successor function from state 0, draws are written exactly
at iterations 0 and 2, so the first iteration is written. -/
theorem C8_generate_transitions_thinning_witness :
    (generate_transitions Nat.succ 3 0 true (0 : ℕ) = none) ∧
    ((2 : ℤ) ≠ 0 ∧
      generate_transitions Nat.succ 4 2 true (0 : ℕ) = some (4, [0, 2])) ∧
    ((2 : ℤ) ≠ 0 ∧ (0 : ℤ) < 4 ∧
      ∃ sN ws, generate_transitions Nat.succ 4 2 true (0 : ℕ) =
        some (sN, ws) ∧ 0 ∈ ws) := by
  refine ⟨?_, ⟨by decide, ?_⟩, ⟨by decide, by decide, ?_⟩⟩
  · exact (C8_generate_transitions_thinning Nat.succ 3 0 true 0).1 rfl
      (by decide) rfl
  · have h := (C8_generate_transitions_thinning Nat.succ 4 2 true 0).2.1
      (by decide)
    exact h.trans (by decide)
  · exact (C8_generate_transitions_thinning Nat.succ 4 2 true 0).2.2
      (by decide) rfl (by decide)

end services.util

end Stan
